import Mathlib

/-!
Shallow embedding of the stateful rendering context core of a wgpu backend
for the piet 2D drawing API (src/context.rs and src/text.rs), together with
theorems checking the specification claims about it.

Machine floats (f32/f64) are modelled by exact rationals: every claim below
is about exact algebraic structure (composition of affine maps, stack and
list bookkeeping), not about rounding.  The `as u32` cast and the wrapping
subtraction in the primitive-id computation of fill/stroke are modelled
explicitly with arithmetic modulo 2^32.

The GPU device/queue/surface, the lyon tessellators, the glyph cache and the
svg store are external collaborators of the source; where a claim needs
their behaviour it is modelled from the spec and marked as such in the
corresponding doc comment.  Rust `Vec` stacks (state stack, clip stack) are
modelled as Lean lists with the most recently pushed element at the head,
so `push` is cons, `pop` is tail and `last()` is `head?`; the primitive
table and the geometry buffers, which are indexed front-to-back, are
modelled as lists appended at the end, as in the source.
-/

namespace PietWgpu

/-- Color in the embedding: the four rgba components as returned by piet
`Color.as_rgba`.  The sRGB linearization done by `format_color` is a pure
float transformation (`powf`) irrelevant to every claim; colors are carried
through the pipeline unchanged. -/
abbrev Color := ℚ × ℚ × ℚ × ℚ

/-- Font families are abstract identifiers for the embedding. -/
abbrev FontFamily := Nat

/-- kurbo `Rect`: an axis-aligned rectangle given by its four coordinates. -/
structure Rect where
  x0 : ℚ
  y0 : ℚ
  x1 : ℚ
  y1 : ℚ
deriving DecidableEq, Repr

/-- kurbo `Rect::width`. -/
def Rect.width (r : Rect) : ℚ := r.x1 - r.x0

/-- kurbo `Rect::height`. -/
def Rect.height (r : Rect) : ℚ := r.y1 - r.y0

/-- kurbo `Rect + Vec2`: translate all four coordinates. -/
def translate_rect (r : Rect) (dx dy : ℚ) : Rect :=
  ⟨r.x0 + dx, r.y0 + dy, r.x1 + dx, r.y1 + dy⟩

/-- kurbo `Rect::inflate`. -/
def Rect.inflate (r : Rect) (dx dy : ℚ) : Rect :=
  ⟨r.x0 - dx, r.y0 - dy, r.x1 + dx, r.y1 + dy⟩

/-- kurbo `Affine`: six coefficients `[a, b, c, d, e, f]` for the map
`(x, y) ↦ (a x + c y + e, b x + d y + f)`. -/
structure Affine where
  a : ℚ
  b : ℚ
  c : ℚ
  d : ℚ
  e : ℚ
  f : ℚ
deriving DecidableEq, Repr

/-- kurbo `Affine::default()`, the identity map. -/
def Affine.default : Affine := ⟨1, 0, 0, 1, 0, 0⟩

/-- kurbo `Affine * Affine` (composition, coefficient by coefficient as in
kurbo's `Mul` impl). -/
def Affine.mul (s o : Affine) : Affine :=
  ⟨s.a * o.a + s.c * o.b,
   s.b * o.a + s.d * o.b,
   s.a * o.c + s.c * o.d,
   s.b * o.c + s.d * o.d,
   s.a * o.e + s.c * o.f + s.e,
   s.b * o.e + s.d * o.f + s.f⟩

/-- kurbo `Affine * Point`, used only to state what the spec's phrase
"transforming rect by the full current transform" means for a corner. -/
def Affine.apply (t : Affine) (p : ℚ × ℚ) : ℚ × ℚ :=
  (t.a * p.1 + t.c * p.2 + t.e, t.b * p.1 + t.d * p.2 + t.f)

theorem Affine.mul_assoc (x y z : Affine) : (x.mul y).mul z = x.mul (y.mul z) := by
  cases x; cases y; cases z
  simp only [Affine.mul, Affine.mk.injEq]
  refine ⟨by ring, by ring, by ring, by ring, by ring, by ring⟩

theorem Affine.mul_default (x : Affine) : x.mul Affine.default = x := by
  cases x
  simp only [Affine.mul, Affine.default, Affine.mk.injEq]
  refine ⟨by ring, by ring, by ring, by ring, by ring, by ring⟩

/-- Path elements as produced by kurbo `Shape::path_elements`. -/
inductive PathEl
  | moveTo (p : ℚ × ℚ)
  | lineTo (p : ℚ × ℚ)
  | quadTo (ctrl p : ℚ × ℚ)
  | curveTo (c1 c2 p : ℚ × ℚ)
  | closePath
deriving DecidableEq, Repr

/-- Shapes as the context dispatches on them: `as_rect` succeeds only on a
rectangle, `as_line` only on a line, anything else is walked as a path. -/
inductive Shape
  | rect (r : Rect)
  | line (p0 p1 : ℚ × ℚ)
  | path (els : List PathEl)
deriving DecidableEq, Repr

/-- kurbo `Shape::as_rect`. -/
def Shape.as_rect : Shape → Option Rect
  | .rect r => some r
  | _ => none

/-- GpuVertex from src/pipeline.rs (that file is not part of src/); its
fields are evidenced by context.rs: `pos`, `color`, `primitive_id` from
fill/stroke, `translate` from draw_svg.  Modelled from the spec: the
`..Default::default()` remainder defaults `translate` to the zero vector. -/
structure GpuVertex where
  pos : ℚ × ℚ
  color : Color
  primitive_id : Nat
  translate : ℚ × ℚ := (0, 0)
deriving DecidableEq, Repr

/-- Primitive from src/pipeline.rs (that file is not part of src/); its
fields are evidenced by context.rs.  Modelled from the spec: the record
holds a translation, a 2x3 affine split across `transform_1`/`transform_2`
whose `Default` is the identity, a clip flag plus clip rectangle, and blur
parameters, with the defaults below coming from `Default::default()`. -/
structure Primitive where
  translate : ℚ × ℚ := (0, 0)
  transform_1 : ℚ × ℚ × ℚ × ℚ := (1, 0, 0, 1)
  transform_2 : ℚ × ℚ := (0, 0)
  clip : ℚ := 0
  clip_rect : Rect := ⟨0, 0, 0, 0⟩
  blur_radius : ℚ := 0
  blur_rect : Rect := ⟨0, 0, 0, 0⟩
deriving DecidableEq, Repr

/-- State frame (src/context.rs, `struct State`). -/
structure State where
  rel_transform : Affine
  transform : Affine
  n_clip : Nat
deriving DecidableEq, Repr

/-- piet `Error` variants produced by context.rs (`StackUnbalance` from
restore, `NotSupported` from the surface-acquisition `map_err`). -/
inductive Error
  | StackUnbalance
  | NotSupported
deriving DecidableEq, Repr

/-- lyon `VertexBuffers`: the shared growable geometry batch. -/
structure Geometry where
  vertices : List GpuVertex
  indices : List Nat
deriving DecidableEq, Repr

/-- WgpuRenderContext state (src/context.rs).  The renderer, the two
tessellators and the text handle are external collaborators and carry no
state the claims depend on; `texture` and `tex_view` keep only presence;
`draw_command_buffers` keeps abstract buffer identifiers. -/
structure Ctx where
  geometry : Geometry
  cur_transform : Affine
  state_stack : List State
  clip_stack : List Rect
  primitives : List Primitive
  draw_command_buffers : Option (List Nat)
  texture : Option Unit
  tex_view : Option Unit
deriving DecidableEq, Repr

/-- WgpuRenderContext::new. -/
def Ctx.new : Ctx :=
  { geometry := ⟨[], []⟩
    cur_transform := Affine.default
    state_stack := []
    clip_stack := []
    primitives := []
    draw_command_buffers := some []
    texture := none
    tex_view := none }

/-- WgpuRenderContext::current_clip: the most recently pushed clip rect. -/
def current_clip (c : Ctx) : Option Rect :=
  c.clip_stack.head?

/-- The record pushed by WgpuRenderContext::add_primitive, given the current
transform and the current clip. -/
def prim_of (cur : Affine) (cl : Option Rect) : Primitive :=
  { translate := (cur.e, cur.f)
    clip := match cl with | some _ => 1 | none => 0
    clip_rect := match cl with | some r => r | none => ⟨0, 0, 0, 0⟩ }

/-- WgpuRenderContext::add_primitive. -/
def add_primitive (c : Ctx) : Ctx :=
  { c with primitives := c.primitives ++ [prim_of c.cur_transform (current_clip c)] }

/-- RenderContext::save for WgpuRenderContext: push a frame capturing the
current transform; always succeeds. -/
def save (c : Ctx) : Ctx × Option Error :=
  ({ c with state_stack :=
      { rel_transform := Affine.default
        transform := c.cur_transform
        n_clip := 0 } :: c.state_stack }, none)

/-- RenderContext::restore for WgpuRenderContext: pop the top frame, restore
the captured transform, pop that frame's `n_clip` clip entries (the
`for _ in 0..n_clip` loop of `pop_clip` calls), append a primitive record;
on an empty stack return `StackUnbalance` leaving the state untouched. -/
def restore (c : Ctx) : Ctx × Option Error :=
  match c.state_stack with
  | state :: rest =>
      (add_primitive { c with
        state_stack := rest
        cur_transform := state.transform
        clip_stack := c.clip_stack.drop state.n_clip }, none)
  | [] => (c, some Error.StackUnbalance)

/-- RenderContext::transform for WgpuRenderContext: compose the delta into
the top frame's relative transform (when a frame exists) and into the
current transform, then append a primitive record. -/
def transform (c : Ctx) (t : Affine) : Ctx :=
  add_primitive { c with
    state_stack :=
      match c.state_stack with
      | s :: rest => { s with rel_transform := s.rel_transform.mul t } :: rest
      | [] => []
    cur_transform := c.cur_transform.mul t }

/-- RenderContext::clip for WgpuRenderContext: only rectangles act; the rect
is translated by the translation coefficients `affine[4], affine[5]` of the
current transform, pushed on the clip stack, the top frame's clip counter is
bumped when a frame exists, and one primitive record is appended. -/
def clip (c : Ctx) (sh : Shape) : Ctx :=
  match sh.as_rect with
  | none => c
  | some rect =>
      let rect := translate_rect rect c.cur_transform.e c.cur_transform.f
      add_primitive { c with
        clip_stack := rect :: c.clip_stack
        state_stack :=
          match c.state_stack with
          | s :: rest => { s with n_clip := s.n_clip + 1 } :: rest
          | [] => [] }

/-- Brush (src/context.rs): the only supported brush is a solid color. -/
inductive Brush
  | solid (color : Color)
deriving DecidableEq, Repr

/-- The value `2^32`, modelling the `as u32` casts of the source. -/
def u32_size : Nat := 4294967296

/-- The primitive id computed by fill and stroke: the Rust expression
`self.primitives.len() as u32 - 1`, i.e. the table length cast to `u32`
followed by a wrapping subtraction of one (in a debug build the
subtraction panics instead of wrapping when the table is empty). -/
def len_minus_one_u32 (len : Nat) : Nat :=
  (len % u32_size + (u32_size - 1)) % u32_size

/-- Tessellation of a rectangle fill.  Modelled from the spec: the lyon
fill tessellator is consumed as an external capability, and the spec fixes
that the fill of an axis-aligned rectangle yields exactly 4 vertices and 6
indices (two triangles); every produced vertex is tagged with the given
primitive id, as in the `BuffersBuilder` closure of the source. -/
def tessellate_rect_fill (r : Rect) (color : Color) (primitive_id : Nat) :
    List GpuVertex × List Nat :=
  ([{ pos := (r.x0, r.y0), color := color, primitive_id := primitive_id },
    { pos := (r.x1, r.y0), color := color, primitive_id := primitive_id },
    { pos := (r.x0, r.y1), color := color, primitive_id := primitive_id },
    { pos := (r.x1, r.y1), color := color, primitive_id := primitive_id }],
   [0, 1, 2, 2, 1, 3])

/-- RenderContext::fill for WgpuRenderContext: only rectangles are
tessellated (non-zero fill rule, tolerance 0.02); any other shape falls out
of the `if let Some(rect)` and nothing is appended.  New indices are offset
by the vertex count already in the batch, as lyon's `BuffersBuilder` does. -/
def fill (c : Ctx) (sh : Shape) (br : Brush) : Ctx :=
  match sh.as_rect with
  | some rect =>
      let color := match br with | Brush.solid col => col
      let primitive_id := len_minus_one_u32 c.primitives.length
      let vi := tessellate_rect_fill rect color primitive_id
      { c with geometry :=
          { vertices := c.geometry.vertices ++ vi.1
            indices := c.geometry.indices ++
              vi.2.map (fun i => i + c.geometry.vertices.length) } }
  | none => c

/-- Centerline points of a shape as the stroke tessellator walks it: the
rectangle branch walks the rectangle outline, the line branch the two
endpoints, the path branch the on-curve points of its elements. -/
def Shape.centerline : Shape → List (ℚ × ℚ)
  | .rect r => [(r.x0, r.y0), (r.x1, r.y0), (r.x1, r.y1), (r.x0, r.y1), (r.x0, r.y0)]
  | .line p0 p1 => [p0, p1]
  | .path els => els.filterMap (fun el =>
      match el with
      | .moveTo p => some p
      | .lineTo p => some p
      | .quadTo _ p => some p
      | .curveTo _ _ p => some p
      | .closePath => none)

/-- Stroke mesh vertex positions.  Modelled from the spec: the lyon stroke
tessellator is an external capability; the spec fixes only that the stroke
approximates width by offsetting each centerline vertex along the local
normal by half the width each side (the normal direction itself is not
determined by the spec and is taken vertical in this model). -/
def stroke_offsets (pts : List (ℚ × ℚ)) (width : ℚ) : List (ℚ × ℚ) :=
  pts.flatMap (fun p => [(p.1, p.2 + width / 2), (p.1, p.2 - width / 2)])

/-- Stroke mesh indices: a triangle strip over the paired offset vertices,
two triangles per centerline segment. -/
def strip_indices (n : Nat) : List Nat :=
  (List.range (n - 1)).flatMap (fun j =>
    [2 * j, 2 * j + 1, 2 * j + 2, 2 * j + 2, 2 * j + 1, 2 * j + 3])

/-- RenderContext::stroke for WgpuRenderContext: the primitive id
`self.primitives.len() as u32 - 1` is computed once, before dispatching on
the shape, and every branch (rectangle, line, path) appends a mesh whose
vertices are tagged with it. -/
def stroke (c : Ctx) (sh : Shape) (br : Brush) (width : ℚ) : Ctx :=
  let color := match br with | Brush.solid col => col
  let primitive_id := len_minus_one_u32 c.primitives.length
  let pts := sh.centerline
  let vs := (stroke_offsets pts width).map (fun p =>
    { pos := p, color := color, primitive_id := primitive_id : GpuVertex })
  { c with geometry :=
      { vertices := c.geometry.vertices ++ vs
        indices := c.geometry.indices ++
          (strip_indices pts.length).map (fun i => i + c.geometry.vertices.length) } }

/-- Replace the last element of a primitive table, as the source's
`self.primitives.last_mut()` mutations do. -/
def update_last (f : Primitive → Primitive) : List Primitive → List Primitive
  | [] => []
  | [p] => [f p]
  | p :: q :: rest => p :: update_last f (q :: rest)

/-- RenderContext::blurred_rect for WgpuRenderContext: inflate the rect by
3x the blur radius, deflate back for the shader-side core rect, append a
primitive record and store the blur parameters on it, tessellate the
inflated rect as an ordinary fill tagged `len - 1` (the table is non-empty
here), and append one further primitive record. -/
def blurred_rect (c : Ctx) (rect : Rect) (blur_radius : ℚ) (br : Brush) : Ctx :=
  let rect := rect.inflate (3 * blur_radius) (3 * blur_radius)
  let blur_rect := rect.inflate (-(3 * blur_radius)) (-(3 * blur_radius))
  let color := match br with | Brush.solid col => col
  let c := add_primitive c
  let set_blur := fun (p : Primitive) =>
    { p with blur_radius := blur_radius, blur_rect := blur_rect }
  let c := { c with primitives := update_last set_blur c.primitives }
  let primitive_id := len_minus_one_u32 c.primitives.length
  let vi := tessellate_rect_fill rect color primitive_id
  let c := { c with geometry :=
      { vertices := c.geometry.vertices ++ vi.1
        indices := c.geometry.indices ++
          vi.2.map (fun i => i + c.geometry.vertices.length) } }
  add_primitive c

/-- Pre-parsed svg data fetched from the renderer's svg store (an external
collaborator): the view box, the registered transform variants (six
coefficients each, the source reads indices 0, 3, 4 and 5), and the cached
tessellated geometry with cache-local primitive ids. -/
structure SvgData where
  view_rect : Rect
  transforms : List Affine
  geom_vertices : List GpuVertex
  geom_indices : List Nat
deriving DecidableEq, Repr

/-- WgpuRenderContext::draw_svg: uniform aspect-preserving scale, one
primitive per registered transform variant whose affine coefficients are
composed from the scale and the variant (mutating the freshly appended
record), one further primitive for the image's own geometry, then the
cached vertices are copied with their translate set, their primitive id
rebased on the table length at entry and their color optionally
overridden, and the cached indices are offset by the vertex count at
entry. -/
def draw_svg (c : Ctx) (svg : SvgData) (rect : Rect) (override_color : Option Color) : Ctx :=
  let view_rect := svg.view_rect
  let scale := min (rect.width / view_rect.width) (rect.height / view_rect.height)
  let translate := (rect.x0, rect.y0)
  let offset := c.geometry.vertices.length
  let primitive_id := c.primitives.length
  let variant_step := fun (c : Ctx) (tr : Affine) =>
    let c := add_primitive c
    let set_variant := fun (p : Primitive) =>
      { p with
        transform_1 := (p.transform_1.1 * (scale * tr.a), p.transform_1.2.1,
                        p.transform_1.2.2.1, p.transform_1.2.2.2 * (scale * tr.d)),
        transform_2 := (p.transform_2.1 + scale * tr.e,
                        p.transform_2.2 + scale * tr.f) }
    { c with primitives := update_last set_variant c.primitives }
  let c := svg.transforms.foldl variant_step c
  let c := add_primitive c
  let vertices := svg.geom_vertices.map (fun v =>
    { v with translate := translate,
             primitive_id := primitive_id + v.primitive_id,
             color := match override_color with | some col => col | none => v.color })
  let indices := svg.geom_indices.map (fun i => i + offset)
  { c with geometry :=
      { vertices := c.geometry.vertices ++ vertices
        indices := c.geometry.indices ++ indices } }

/-- WgpuRenderContext::wgpu_view: return the cached view if one exists;
otherwise acquire the surface texture (an external call whose outcome is
the `surf_ok` parameter), caching texture and view on success and mapping
the failure to `NotSupported`. -/
def wgpu_view (c : Ctx) (surf_ok : Bool) : Ctx × Option Error :=
  match c.tex_view with
  | some _ => (c, none)
  | none =>
      if surf_ok then
        ({ c with texture := some (), tex_view := some () }, none)
      else (c, some Error.NotSupported)

/-- Observable effects of one finish() call: whether geometry was uploaded
and the main draw submitted, which queued custom-pass buffers were
submitted, and whether the surface was presented. -/
structure FrameEffects where
  uploaded : Bool
  main_submitted : Bool
  custom_submitted : List Nat
  presented : Bool
deriving DecidableEq, Repr

/-- No observable effect. -/
def no_effects : FrameEffects :=
  { uploaded := false, main_submitted := false, custom_submitted := [], presented := false }

/-- How a finish() call ends: an early error return, a panic of one of its
`unwrap()` calls, or normal completion. -/
inductive FinishResult
  | errored (e : Error)
  | panicked
  | ok
deriving DecidableEq, Repr

/-- RenderContext::finish for WgpuRenderContext, in source order: acquire
the view through `wgpu_view()?` (an early error return leaves everything
untouched); if the primitive table is non-empty upload the batch and table
and submit the main draw; submit `draw_command_buffers.take().unwrap()`
(panics when already taken); `texture.take().unwrap().present()` (panics
when no texture); clear the cached view.  The staging-belt recall drain is
renderer-internal and has no observable effect here. -/
def finish (c : Ctx) (surf_ok : Bool) : Ctx × FrameEffects × FinishResult :=
  match wgpu_view c surf_ok with
  | (c1, some e) => (c1, no_effects, FinishResult.errored e)
  | (c1, none) =>
      let fx1 : FrameEffects :=
        if c1.primitives.isEmpty then no_effects
        else { no_effects with uploaded := true, main_submitted := true }
      match c1.draw_command_buffers with
      | none => (c1, fx1, FinishResult.panicked)
      | some bufs =>
          let c2 := { c1 with draw_command_buffers := none }
          let fx2 := { fx1 with custom_submitted := bufs }
          match c2.texture with
          | none => (c2, fx2, FinishResult.panicked)
          | some _ =>
              ({ c2 with texture := none, tex_view := none },
               { fx2 with presented := true }, FinishResult.ok)

/-- piet `util::LayoutDefaults`, restricted to the fields the layout reads. -/
structure LayoutDefaults where
  fg_color : Color
  font : FontFamily
  font_size : ℚ
deriving DecidableEq, Repr

/-- piet `TextAttribute` variants; weight, style, underline and
strikethrough are collapsed into `other` since `Attributes::add` treats
everything except `TextColor` alike. -/
inductive TextAttribute
  | textColor (color : Color)
  | fontFamily (family : FontFamily)
  | fontSize (size : ℚ)
  | other
deriving DecidableEq, Repr

/-- Span (src/text.rs): an attribute payload applied to a byte range,
`range = (start, stop)` standing for `start..stop`. -/
structure Span (T : Type) where
  payload : T
  range : Nat × Nat
deriving DecidableEq, Repr

/-- Rust `Range::contains`: `start <= i && i < stop`. -/
def span_contains (range : Nat × Nat) (i : Nat) : Bool :=
  decide (range.1 ≤ i) && decide (i < range.2)

/-- Attributes (src/text.rs): layout defaults plus per-kind span lists. -/
structure Attributes where
  defaults : LayoutDefaults
  color : List (Span Color)
  font : List (Span FontFamily)
  size : List (Span ℚ)
  weight : Option (Span Nat)
  style : Option (Span Nat)
deriving DecidableEq, Repr

/-- Attributes::default(): empty span lists around the given defaults. -/
def attrs_default (d : LayoutDefaults) : Attributes :=
  { defaults := d, color := [], font := [], size := [], weight := none, style := none }

/-- Attributes::add (src/text.rs): only `TextColor` is pushed; every other
attribute falls through the wildcard arm and is dropped. -/
def Attributes.add (a : Attributes) (range : Nat × Nat) (attr : TextAttribute) : Attributes :=
  match attr with
  | TextAttribute.textColor col => { a with color := a.color ++ [⟨col, range⟩] }
  | _ => a

/-- Attributes::color (src/text.rs): first span containing the index wins,
else the default foreground color. -/
def Attributes.color_at (a : Attributes) (i : Nat) : Color :=
  match a.color.find? (fun sp => span_contains sp.range i) with
  | some sp => sp.payload
  | none => a.defaults.fg_color

/-- Attributes::size (src/text.rs): first span containing the index wins,
else the default font size. -/
def Attributes.size_at (a : Attributes) (i : Nat) : ℚ :=
  match a.size.find? (fun sp => span_contains sp.range i) with
  | some sp => sp.payload
  | none => a.defaults.font_size

/-- Attributes::font (src/text.rs): first span containing the index wins,
else the default family. -/
def Attributes.font_at (a : Attributes) (i : Nat) : FontFamily :=
  match a.font.find? (fun sp => span_contains sp.range i) with
  | some sp => sp.payload
  | none => a.defaults.font

/-- The attributes assembled by WgpuTextLayoutBuilder: starting from the
defaults, each `range_attribute` builder call feeds `Attributes::add`. -/
def build_attrs (d : LayoutDefaults) (adds : List ((Nat × Nat) × TextAttribute)) : Attributes :=
  adds.foldl (fun a ra => a.add ra.1 ra.2) (attrs_default d)

/-- Glyph data returned by the process-wide glyph cache (an external
collaborator): the glyph rectangle's extent and the atlas rectangle. -/
structure GlyphPos where
  rect_w : ℚ
  rect_h : ℚ
  cache_rect : Rect
deriving DecidableEq, Repr

/-- Instance (src/text_pipeline.rs, not part of src/): the per-glyph
record rebuild produces, fields as written by src/text.rs. -/
structure Instance where
  origin : ℚ × ℚ × ℚ
  size : ℚ × ℚ
  tex_left_top : ℚ × ℚ
  tex_right_bottom : ℚ × ℚ
  color : Color
deriving DecidableEq, Repr

/-- WgpuTextLayout::rebuild: walk the characters in order with a pen
position `x` (and constant `y = 0`), look up color, font and size by
character index, ask the glyph cache (the `get_glyph_pos` parameter) for
each glyph, emit one instance and one origin per hit and advance the pen by
the glyph width; misses contribute nothing.  Returns (instances,
instances_origins). -/
def rebuild (text : List Char) (attrs : Attributes)
    (get_glyph_pos : Char → FontFamily → ℚ → Option GlyphPos) :
    List Instance × List (ℚ × ℚ) :=
  let step := fun (acc : List Instance × List (ℚ × ℚ) × ℚ) (ic : Nat × Char) =>
    let font_family := attrs.font_at ic.1
    let font_size := attrs.size_at ic.1
    let color := attrs.color_at ic.1
    match get_glyph_pos ic.2 font_family font_size with
    | some gp =>
        (acc.1 ++ [{ origin := (acc.2.2, 0, 0)
                     size := (gp.rect_w, gp.rect_h)
                     tex_left_top := (gp.cache_rect.x0, gp.cache_rect.y0)
                     tex_right_bottom := (gp.cache_rect.x1, gp.cache_rect.y1)
                     color := color }],
         acc.2.1 ++ [(acc.2.2, (0 : ℚ))], acc.2.2 + gp.rect_w)
    | none => acc
  let out := text.enum.foldl step ([], [], 0)
  (out.1, out.2.1)

/-- The drawing-call alphabet for the state-stack claims: the four
operations that manipulate the save/restore stack. -/
inductive Op
  | save
  | restore
  | transform (t : Affine)
  | clip (r : Rect)
deriving DecidableEq, Repr

/-- Run one operation against the context.  A failed restore leaves the
state untouched, exactly as the source's early `Err` return does. -/
def apply_op (c : Ctx) : Op → Ctx
  | Op.save => (save c).1
  | Op.restore => (restore c).1
  | Op.transform t => transform c t
  | Op.clip r => clip c (Shape.rect r)

/-- Run a sequence of operations left to right. -/
def exec (c : Ctx) (l : List Op) : Ctx :=
  l.foldl apply_op c

/-- Sequences whose save/restore calls are balanced and that sit inside at
least one enclosing save scope: arbitrary transform and clip calls, and
properly nested scopes. -/
inductive Scoped : List Op → Prop
  | nil : Scoped []
  | tr (t : Affine) (l : List Op) : Scoped l → Scoped (Op.transform t :: l)
  | cl (r : Rect) (l : List Op) : Scoped l → Scoped (Op.clip r :: l)
  | sc (l m : List Op) : Scoped l → Scoped m →
      Scoped (Op.save :: (l ++ Op.restore :: m))

/-- Balanced sequences: a concatenation of save/restore scopes, each
restore matching its prior save, with transform and clip calls interleaved
inside the scopes. -/
inductive Balanced : List Op → Prop
  | nil : Balanced []
  | sc (l m : List Op) : Scoped l → Balanced m →
      Balanced (Op.save :: (l ++ Op.restore :: m))

theorem exec_cons (c : Ctx) (op : Op) (l : List Op) :
    exec c (op :: l) = exec (apply_op c op) l := rfl

theorem exec_append (c : Ctx) (l m : List Op) :
    exec c (l ++ m) = exec (exec c l) m := by
  simp [exec, List.foldl_append]

theorem drop_len_append {α : Type} (l₁ l₂ : List α) :
    (l₁ ++ l₂).drop l₁.length = l₂ := by
  induction l₁ with
  | nil => simp
  | cons x xs ih => simpa using ih

/-- Running a scoped sequence with a top frame in place: the frame below
stays, the top frame keeps its captured transform, its clip counter grows
by exactly the number of clip rectangles pushed, and those rectangles sit
on top of the old clip stack. -/
theorem scoped_exec {l : List Op} (h : Scoped l) :
    ∀ (c : Ctx) (fr : State) (rest : List State), c.state_stack = fr :: rest →
    ∃ (fr2 : State) (pushed : List Rect),
      (exec c l).state_stack = fr2 :: rest ∧
      fr2.transform = fr.transform ∧
      fr2.n_clip = pushed.length + fr.n_clip ∧
      (exec c l).clip_stack = pushed ++ c.clip_stack := by
  induction h with
  | nil =>
      intro c fr rest hc
      exact ⟨fr, [], by simpa [exec] using hc, rfl, by simp, by simp [exec]⟩
  | tr t l hl ih =>
      intro c fr rest hc
      have hs : (transform c t).state_stack =
          { fr with rel_transform := fr.rel_transform.mul t } :: rest := by
        simp [transform, add_primitive, hc]
      obtain ⟨fr2, pushed, h1, h2, h3, h4⟩ := ih (transform c t) _ rest hs
      have hcl : (transform c t).clip_stack = c.clip_stack := rfl
      refine ⟨fr2, pushed, ?_, ?_, ?_, ?_⟩
      · simpa [exec_cons, apply_op] using h1
      · simpa using h2
      · simpa using h3
      · rw [exec_cons]
        show (exec (transform c t) l).clip_stack = pushed ++ c.clip_stack
        rw [h4, hcl]
  | cl r l hl ih =>
      intro c fr rest hc
      have hs : (clip c (Shape.rect r)).state_stack =
          { fr with n_clip := fr.n_clip + 1 } :: rest := by
        simp [clip, Shape.as_rect, add_primitive, hc]
      have hcl : (clip c (Shape.rect r)).clip_stack =
          translate_rect r c.cur_transform.e c.cur_transform.f :: c.clip_stack := rfl
      obtain ⟨fr2, pushed, h1, h2, h3, h4⟩ := ih (clip c (Shape.rect r)) _ rest hs
      refine ⟨fr2, pushed ++ [translate_rect r c.cur_transform.e c.cur_transform.f], ?_, ?_, ?_, ?_⟩
      · simpa [exec_cons, apply_op] using h1
      · simpa using h2
      · simp only [List.length_append, List.length_singleton]
        simp at h3
        omega
      · rw [exec_cons]
        show (exec (clip c (Shape.rect r)) l).clip_stack = _
        rw [h4, hcl]
        simp
  | sc l m hl hm ihl ihm =>
      intro c fr rest hc
      have e1 : exec c (Op.save :: (l ++ Op.restore :: m)) =
          exec (apply_op (exec (save c).1 l) Op.restore) m := by
        rw [exec_cons, exec_append, exec_cons]
        rfl
      have hsave : (save c).1.state_stack =
          ({ rel_transform := Affine.default, transform := c.cur_transform, n_clip := 0 } : State)
            :: c.state_stack := rfl
      obtain ⟨g2, pushed, h1, h2, h3, h4⟩ := ihl (save c).1 _ c.state_stack hsave
      have hres : apply_op (exec (save c).1 l) Op.restore =
          add_primitive { exec (save c).1 l with
            state_stack := c.state_stack
            cur_transform := g2.transform
            clip_stack := (exec (save c).1 l).clip_stack.drop g2.n_clip } := by
        show (restore (exec (save c).1 l)).1 = _
        rw [restore.eq_def]
        rw [h1]
      have hclip : ((exec (save c).1 l).clip_stack.drop g2.n_clip) = c.clip_stack := by
        rw [h4, h3]
        have hscl : (save c).1.clip_stack = c.clip_stack := rfl
        rw [hscl]
        simpa using drop_len_append pushed c.clip_stack
      have hstate : (apply_op (exec (save c).1 l) Op.restore).state_stack = fr :: rest := by
        rw [hres]
        simpa [add_primitive] using hc
      obtain ⟨fr2, pushed2, g1, g2eq, g3, g4⟩ :=
        ihm (apply_op (exec (save c).1 l) Op.restore) fr rest hstate
      refine ⟨fr2, pushed2, ?_, g2eq, g3, ?_⟩
      · rw [e1]; exact g1
      · rw [e1, g4, hres]
        show pushed2 ++ ((exec (save c).1 l).clip_stack.drop g2.n_clip) = pushed2 ++ c.clip_stack
        rw [hclip]

/-- Running a balanced sequence restores current transform, clip stack and
state stack exactly. -/
theorem balanced_exec {l : List Op} (h : Balanced l) :
    ∀ c : Ctx, (exec c l).cur_transform = c.cur_transform ∧
      (exec c l).clip_stack = c.clip_stack ∧
      (exec c l).state_stack = c.state_stack := by
  induction h with
  | nil => intro c; simp [exec]
  | sc l m hl hm ih =>
      intro c
      have e1 : exec c (Op.save :: (l ++ Op.restore :: m)) =
          exec (apply_op (exec (save c).1 l) Op.restore) m := by
        rw [exec_cons, exec_append, exec_cons]
        rfl
      have hsave : (save c).1.state_stack =
          ({ rel_transform := Affine.default, transform := c.cur_transform, n_clip := 0 } : State)
            :: c.state_stack := rfl
      obtain ⟨g2, pushed, h1, h2, h3, h4⟩ := scoped_exec hl (save c).1 _ c.state_stack hsave
      have hres : apply_op (exec (save c).1 l) Op.restore =
          add_primitive { exec (save c).1 l with
            state_stack := c.state_stack
            cur_transform := g2.transform
            clip_stack := (exec (save c).1 l).clip_stack.drop g2.n_clip } := by
        show (restore (exec (save c).1 l)).1 = _
        rw [restore.eq_def]
        rw [h1]
      have hclip : ((exec (save c).1 l).clip_stack.drop g2.n_clip) = c.clip_stack := by
        rw [h4, h3]
        have hscl : (save c).1.clip_stack = c.clip_stack := rfl
        rw [hscl]
        simpa using drop_len_append pushed c.clip_stack
      have hmid : (apply_op (exec (save c).1 l) Op.restore).cur_transform = c.cur_transform ∧
          (apply_op (exec (save c).1 l) Op.restore).clip_stack = c.clip_stack ∧
          (apply_op (exec (save c).1 l) Op.restore).state_stack = c.state_stack := by
        rw [hres]
        refine ⟨by simpa [add_primitive] using h2, by simpa [add_primitive] using hclip, rfl⟩
      obtain ⟨i1, i2, i3⟩ := ih (apply_op (exec (save c).1 l) Op.restore)
      rw [e1]
      exact ⟨by rw [i1, hmid.1], by rw [i2, hmid.2.1], by rw [i3, hmid.2.2]⟩

/-- C2: for every balanced sequence of save and restore calls, with
transform and clip calls interleaved inside the scopes, the current
transform and the clip-stack depth after the sequence equal their values
before it. -/
theorem C2_balanced_round_trip {l : List Op} (h : Balanced l) (c : Ctx) :
    (exec c l).cur_transform = c.cur_transform ∧
    (exec c l).clip_stack.length = c.clip_stack.length :=
  ⟨(balanced_exec h c).1, by rw [(balanced_exec h c).2.1]⟩

/-- A pure-translation affine used in the concrete checks. -/
def t0 : Affine := ⟨1, 0, 0, 1, 3, 4⟩

/-- A unit square used in the concrete checks. -/
def r0 : Rect := ⟨0, 0, 1, 1⟩

/-- A concrete balanced sequence for the C2 witness. -/
def c2ops : List Op := [Op.save, Op.transform t0, Op.clip r0, Op.restore]

theorem C2_witness :
    Balanced c2ops ∧
    ((exec Ctx.new c2ops).cur_transform = Ctx.new.cur_transform ∧
     (exec Ctx.new c2ops).clip_stack.length = Ctx.new.clip_stack.length) := by
  have hb : Balanced c2ops :=
    Balanced.sc [Op.transform t0, Op.clip r0] []
      (Scoped.tr t0 _ (Scoped.cl r0 [] Scoped.nil)) Balanced.nil
  exact ⟨hb, C2_balanced_round_trip hb Ctx.new⟩

/-- The state-stack invariant stated in the source comment on `State`
(`transform * rel_transform = cur_transform`): each frame's captured
transform composed with its relative transform equals the transform
current while that frame is top of stack — the context's current transform
for the top frame, and the transform captured by the frame above for every
lower frame. -/
def stack_inv : List State → Affine → Bool
  | [], _ => true
  | s :: rest, cur =>
      decide (s.transform.mul s.rel_transform = cur) && stack_inv rest s.transform

/-- C6: the composition invariant between captured and relative transforms
holds for every frame at the moment it is top of stack, and is preserved by
save, restore, transform and clip. -/
theorem C6_state_invariant_preserved (c : Ctx) (op : Op)
    (h : stack_inv c.state_stack c.cur_transform = true) :
    stack_inv (apply_op c op).state_stack (apply_op c op).cur_transform = true := by
  cases op with
  | save =>
      simpa [apply_op, save, stack_inv, Affine.mul_default] using h
  | restore =>
      cases hs : c.state_stack with
      | nil =>
          simp only [apply_op, restore, hs]
          simpa [hs] using h
      | cons s rest =>
          rw [hs] at h
          simp only [stack_inv, Bool.and_eq_true, decide_eq_true_eq] at h
          simp only [apply_op, restore, hs, add_primitive]
          exact h.2
  | transform t =>
      cases hs : c.state_stack with
      | nil =>
          simp [apply_op, transform, add_primitive, hs, stack_inv]
      | cons s rest =>
          rw [hs] at h
          simp only [stack_inv, Bool.and_eq_true, decide_eq_true_eq] at h
          simp only [apply_op, transform, add_primitive, hs, stack_inv,
            Bool.and_eq_true, decide_eq_true_eq]
          exact ⟨by rw [← Affine.mul_assoc, h.1], h.2⟩
  | clip r =>
      cases hs : c.state_stack with
      | nil =>
          simp only [apply_op, clip, Shape.as_rect, add_primitive, hs]
          simp [stack_inv]
      | cons s rest =>
          rw [hs] at h
          simp only [stack_inv, Bool.and_eq_true, decide_eq_true_eq] at h
          simp only [apply_op, clip, Shape.as_rect, add_primitive, hs, stack_inv,
            Bool.and_eq_true, decide_eq_true_eq]
          exact h

/-- A context with one frame on the stack satisfying the invariant, for
the C6 witness. -/
def c6w : Ctx := { Ctx.new with
  state_stack := [{ rel_transform := Affine.default
                    transform := Affine.default
                    n_clip := 0 }] }

theorem C6_witness :
    stack_inv c6w.state_stack c6w.cur_transform = true ∧
    stack_inv (apply_op c6w (Op.transform t0)).state_stack
      (apply_op c6w (Op.transform t0)).cur_transform = true :=
  ⟨by simp [c6w, Ctx.new, stack_inv, Affine.mul_default],
   C6_state_invariant_preserved c6w (Op.transform t0)
     (by simp [c6w, Ctx.new, stack_inv, Affine.mul_default])⟩

/-- C3: restore on an empty state stack returns StackUnbalance and leaves
the whole context — in particular the clip stack, the current transform
and the primitive table — untouched. -/
theorem C3_restore_empty_untouched (c : Ctx) (h : c.state_stack = []) :
    restore c = (c, some Error.StackUnbalance) ∧
    (restore c).1.clip_stack = c.clip_stack ∧
    (restore c).1.cur_transform = c.cur_transform ∧
    (restore c).1.primitives = c.primitives := by
  have hr : restore c = (c, some Error.StackUnbalance) := by
    rw [restore.eq_def, h]
  exact ⟨hr, by rw [hr], by rw [hr], by rw [hr]⟩

theorem C3_witness :
    restore Ctx.new = (Ctx.new, some Error.StackUnbalance) ∧
    (restore Ctx.new).1.clip_stack = Ctx.new.clip_stack ∧
    (restore Ctx.new).1.cur_transform = Ctx.new.cur_transform ∧
    (restore Ctx.new).1.primitives = Ctx.new.primitives :=
  C3_restore_empty_untouched Ctx.new rfl

/-- Modelled from the claim's words, for comparison only: the rectangle
obtained by transforming a rectangle by the full current transform,
mapping both defining corners through the affine. -/
def spec_transform_rect (t : Affine) (r : Rect) : Rect :=
  ⟨(t.apply (r.x0, r.y0)).1, (t.apply (r.x0, r.y0)).2,
   (t.apply (r.x1, r.y1)).1, (t.apply (r.x1, r.y1)).2⟩

/-- A scale-by-two affine with no translation. -/
def scale2 : Affine := ⟨2, 0, 0, 2, 0, 0⟩

/-- A fresh context whose current transform is scale-by-two. -/
def c4ctx : Ctx := { Ctx.new with cur_transform := scale2 }

/-- C4 counterexample: with current transform scale-by-two, clip pushes the
rectangle unchanged (the transform's translation components are zero),
while transforming it by the full current transform would give the doubled
rectangle; the two differ. -/
theorem C4_counterexample :
    (clip c4ctx (Shape.rect ⟨1, 1, 2, 2⟩)).clip_stack = [⟨1, 1, 2, 2⟩] ∧
    spec_transform_rect c4ctx.cur_transform ⟨1, 1, 2, 2⟩ = ⟨2, 2, 4, 4⟩ ∧
    decide ((⟨1, 1, 2, 2⟩ : Rect) = ⟨2, 2, 4, 4⟩) = false := by
  refine ⟨?_, ?_, ?_⟩
  · simp [clip, Shape.as_rect, add_primitive, translate_rect, c4ctx, scale2, Ctx.new]
  · simp [spec_transform_rect, Affine.apply, c4ctx, scale2, Ctx.new]
    norm_num
  · rw [decide_eq_false_iff_not]
    intro hcl
    exact absurd (congrArg Rect.x0 hcl) (by norm_num)

/-- The source's `state_stack.last_mut()` counter bump, when a frame
exists. -/
def bump_top_clip : List State → List State
  | s :: rest => { s with n_clip := s.n_clip + 1 } :: rest
  | [] => []

/-- C4 amended: for every rectangle argument, clip pushes the rectangle
translated by the translation components of the current transform (scale
and rotation components are ignored), increments the top frame's clip
counter when a frame exists, and appends exactly one primitive record. -/
theorem C4_translate_only_clip (c : Ctx) (r : Rect) :
    (clip c (Shape.rect r)).clip_stack =
      translate_rect r c.cur_transform.e c.cur_transform.f :: c.clip_stack ∧
    (clip c (Shape.rect r)).state_stack = bump_top_clip c.state_stack ∧
    (clip c (Shape.rect r)).primitives = c.primitives ++
      [prim_of c.cur_transform
        (some (translate_rect r c.cur_transform.e c.cur_transform.f))] := by
  refine ⟨rfl, ?_, rfl⟩
  cases hs : c.state_stack with
  | nil => simp [clip, Shape.as_rect, add_primitive, bump_top_clip, hs]
  | cons s rest => simp [clip, Shape.as_rect, add_primitive, bump_top_clip, hs]

/-- Solid red, the brush used in the concrete checks. -/
def red_brush : Brush := Brush.solid (1, 0, 0, 1)

/-- C5 counterexample: filling a non-degenerate line with a solid brush is
a complete no-op — the context is unchanged and no triangle mesh is
appended. -/
theorem C5_counterexample :
    fill Ctx.new (Shape.line (0, 0) (1, 1)) red_brush = Ctx.new ∧
    (fill Ctx.new (Shape.line (0, 0) (1, 1)) red_brush).geometry.vertices = [] := by
  decide

/-- C5 amended: fill with a solid brush and the default non-zero fill rule
appends a non-empty triangle mesh — 4 vertices and 6 indices — when the
shape is a rectangle; for every line and every path it is a no-op leaving
the context unchanged. -/
theorem C5_fill_rect_only (c : Ctx) (r : Rect) (col : Color) :
    ((fill c (Shape.rect r) (Brush.solid col)).geometry.vertices.length =
        c.geometry.vertices.length + 4 ∧
     (fill c (Shape.rect r) (Brush.solid col)).geometry.indices.length =
        c.geometry.indices.length + 6) ∧
    (∀ p0 p1 : ℚ × ℚ, fill c (Shape.line p0 p1) (Brush.solid col) = c) ∧
    (∀ els : List PathEl, fill c (Shape.path els) (Brush.solid col) = c) := by
  refine ⟨⟨?_, ?_⟩, fun p0 p1 => rfl, fun els => rfl⟩
  · simp [fill, Shape.as_rect, tessellate_rect_fill]
  · simp [fill, Shape.as_rect, tessellate_rect_fill]

/-- Modelled from the claim's words, for comparison only: the intersection
of two axis-aligned rectangles. -/
def rect_intersect (p q : Rect) : Rect :=
  ⟨max p.x0 q.x0, max p.y0 q.y0, min p.x1 q.x1, min p.y1 q.y1⟩

/-- First clip rectangle of the concrete C7 check. -/
def rA0 : Rect := ⟨0, 0, 2, 2⟩

/-- Second clip rectangle of the concrete C7 check. -/
def rB0 : Rect := ⟨1, 1, 3, 3⟩

/-- C7: after clip(A) then clip(B) with no intervening restore, the current
clip is the translated B; the next primitive record appended (through
add_primitive, which every record-appending operation uses) carries clip
flag 1 and clip rectangle translated B; and concretely, on a fresh context
with A = [0,2]x[0,2] and B = [1,3]x[1,3], the tagged rectangle is B itself
and differs from the intersection of A and B. -/
theorem C7_last_clip_wins :
    (∀ (c : Ctx) (A B : Rect),
      current_clip (clip (clip c (Shape.rect A)) (Shape.rect B)) =
        some (translate_rect B c.cur_transform.e c.cur_transform.f)) ∧
    (∀ (c : Ctx) (A B : Rect),
      (add_primitive (clip (clip c (Shape.rect A)) (Shape.rect B))).primitives =
        (clip (clip c (Shape.rect A)) (Shape.rect B)).primitives ++
          [prim_of c.cur_transform
            (some (translate_rect B c.cur_transform.e c.cur_transform.f))]) ∧
    (∀ (cur : Affine) (r : Rect),
      (prim_of cur (some r)).clip = 1 ∧ (prim_of cur (some r)).clip_rect = r) ∧
    (current_clip (clip (clip Ctx.new (Shape.rect rA0)) (Shape.rect rB0)) = some rB0 ∧
     decide (rB0 = rect_intersect rA0 rB0) = false) := by
  refine ⟨fun c A B => rfl, fun c A B => rfl, fun cur r => ⟨rfl, rfl⟩, ?_, ?_⟩
  · simp [current_clip, clip, Shape.as_rect, add_primitive, translate_rect,
      Ctx.new, Affine.default, rA0, rB0]
  · rw [decide_eq_false_iff_not]
    intro hcl
    have hx1 := congrArg Rect.x1 hcl
    rw [rB0, rA0, rect_intersect] at hx1
    norm_num at hx1

/-- C1: evaluated at the failing input — a freshly created context, whose
primitive table is empty.  The wrapping `len as u32 - 1` tags every vertex
appended by fill (and by stroke) with primitive index 4294967295 while the
table length stays 0, so the index is not below the table length; in a
debug build the subtraction panics instead of wrapping. -/
theorem C1_first_draw_underflow :
    Ctx.new.primitives.length = 0 ∧
    (fill Ctx.new (Shape.rect ⟨0, 0, 10, 10⟩) red_brush).geometry.vertices.map
        (fun v => v.primitive_id) =
      [4294967295, 4294967295, 4294967295, 4294967295] ∧
    (fill Ctx.new (Shape.rect ⟨0, 0, 10, 10⟩) red_brush).primitives.length = 0 ∧
    decide (4294967295 <
      (fill Ctx.new (Shape.rect ⟨0, 0, 10, 10⟩) red_brush).primitives.length) = false ∧
    (stroke Ctx.new (Shape.line (0, 0) (1, 1)) red_brush 1).geometry.vertices.map
        (fun v => v.primitive_id) =
      [4294967295, 4294967295, 4294967295, 4294967295] := by
  decide

/-- C8: when no view is cached and surface acquisition fails, finish
returns the error with the context unchanged: nothing is uploaded, no
command buffer — main or custom — is submitted, the queued custom-pass
buffers are not consumed, and nothing is presented. -/
theorem C8_finish_abort (c : Ctx) (h : c.tex_view = none) :
    finish c false = (c, no_effects, FinishResult.errored Error.NotSupported) ∧
    (finish c false).1.draw_command_buffers = c.draw_command_buffers ∧
    (finish c false).2.1.uploaded = false ∧
    (finish c false).2.1.main_submitted = false ∧
    (finish c false).2.1.custom_submitted = [] ∧
    (finish c false).2.1.presented = false := by
  have hv : wgpu_view c false = (c, some Error.NotSupported) := by
    rw [wgpu_view.eq_def, h]
    rfl
  have hf : finish c false = (c, no_effects, FinishResult.errored Error.NotSupported) := by
    rw [finish.eq_def, hv]
  exact ⟨hf, by rw [hf], by rw [hf]; rfl, by rw [hf]; rfl, by rw [hf]; rfl, by rw [hf]; rfl⟩

/-- A context holding one queued custom-pass buffer, for the C8 witness. -/
def c8w : Ctx := { Ctx.new with draw_command_buffers := some [7] }

theorem C8_witness :
    finish c8w false = (c8w, no_effects, FinishResult.errored Error.NotSupported) ∧
    (finish c8w false).1.draw_command_buffers = c8w.draw_command_buffers ∧
    (finish c8w false).2.1.uploaded = false ∧
    (finish c8w false).2.1.main_submitted = false ∧
    (finish c8w false).2.1.custom_submitted = [] ∧
    (finish c8w false).2.1.presented = false :=
  C8_finish_abort c8w rfl

/-- The color span one builder add produces, when the attribute is a
color; nothing otherwise. -/
def color_span (ra : (Nat × Nat) × TextAttribute) : Option (Span Color) :=
  match ra.2 with
  | TextAttribute.textColor col => some ⟨col, ra.1⟩
  | _ => none

/-- Whether a builder add carries a color attribute. -/
def is_color_attr (ra : (Nat × Nat) × TextAttribute) : Bool :=
  match ra.2 with
  | TextAttribute.textColor _ => true
  | _ => false

/-- Folding Attributes::add over a list of builder adds only ever extends
the color span list, by exactly the color spans among the adds, in
order. -/
theorem foldl_add_color (adds : List ((Nat × Nat) × TextAttribute)) :
    ∀ a : Attributes,
      adds.foldl (fun a ra => a.add ra.1 ra.2) a =
        { a with color := a.color ++ adds.filterMap color_span } := by
  induction adds with
  | nil => intro a; simp
  | cons ra rest ih =>
      intro a
      rcases ra with ⟨rng, attr⟩
      cases attr with
      | textColor col =>
          rw [List.foldl_cons, ih]
          simp [Attributes.add, color_span, List.filterMap_cons]
      | fontFamily fam =>
          rw [List.foldl_cons, ih]
          simp [Attributes.add, color_span, List.filterMap_cons]
      | fontSize sz =>
          rw [List.foldl_cons, ih]
          simp [Attributes.add, color_span, List.filterMap_cons]
      | other =>
          rw [List.foldl_cons, ih]
          simp [Attributes.add, color_span, List.filterMap_cons]

/-- Modelled from the claim's words, for comparison only: the color given
by the first range-tagged color attribute among the builder adds whose
range contains the index, else the default foreground color. -/
def spec_first_color (d : LayoutDefaults)
    (adds : List ((Nat × Nat) × TextAttribute)) (i : Nat) : Color :=
  match (adds.find? (fun ra =>
      match ra.2 with
      | TextAttribute.textColor _ => span_contains ra.1 i
      | _ => false)).bind color_span with
  | some sp => sp.payload
  | none => d.fg_color

theorem filterMap_find_color (i : Nat) (adds : List ((Nat × Nat) × TextAttribute)) :
    (adds.filterMap color_span).find? (fun sp => span_contains sp.range i) =
      (adds.find? (fun ra =>
        match ra.2 with
        | TextAttribute.textColor _ => span_contains ra.1 i
        | _ => false)).bind color_span := by
  induction adds with
  | nil => rfl
  | cons ra rest ih =>
      rcases ra with ⟨rng, attr⟩
      cases attr with
      | textColor col =>
          cases hsc : span_contains rng i <;>
            simp [color_span, List.filterMap_cons, List.find?, hsc, ih]
      | fontFamily fam => simpa [color_span, List.filterMap_cons, List.find?] using ih
      | fontSize sz => simpa [color_span, List.filterMap_cons, List.find?] using ih
      | other => simpa [color_span, List.filterMap_cons, List.find?] using ih

theorem color_at_build (d : LayoutDefaults)
    (adds : List ((Nat × Nat) × TextAttribute)) (i : Nat) :
    (build_attrs d adds).color_at i = spec_first_color d adds i := by
  rw [Attributes.color_at, build_attrs, foldl_add_color]
  simp only [attrs_default, List.nil_append]
  rw [filterMap_find_color, spec_first_color]

theorem size_at_build (d : LayoutDefaults)
    (adds : List ((Nat × Nat) × TextAttribute)) (i : Nat) :
    (build_attrs d adds).size_at i = d.font_size := by
  rw [Attributes.size_at, build_attrs, foldl_add_color]
  rfl

theorem font_at_build (d : LayoutDefaults)
    (adds : List ((Nat × Nat) × TextAttribute)) (i : Nat) :
    (build_attrs d adds).font_at i = d.font := by
  rw [Attributes.font_at, build_attrs, foldl_add_color]
  rfl

theorem filterMap_color_filter (adds : List ((Nat × Nat) × TextAttribute)) :
    (adds.filter is_color_attr).filterMap color_span = adds.filterMap color_span := by
  induction adds with
  | nil => rfl
  | cons ra rest ih =>
      rcases ra with ⟨rng, attr⟩
      cases attr <;>
        simp [is_color_attr, color_span, List.filter_cons, List.filterMap_cons, ih]

theorem build_attrs_filter (d : LayoutDefaults)
    (adds : List ((Nat × Nat) × TextAttribute)) :
    build_attrs d adds = build_attrs d (adds.filter is_color_attr) := by
  rw [build_attrs, build_attrs, foldl_add_color, foldl_add_color, filterMap_color_filter]

/-- Layout defaults for the C9 counterexample: opaque white foreground,
family 0, font size 12. -/
def d9 : LayoutDefaults := ⟨(1, 1, 1, 1), 0, 12⟩

/-- C9 counterexample: a font-size range attribute covering index 0 with
payload 99 is added through the builder, yet the size consulted at index 0
is the default 12 — Attributes::add drops every non-color attribute, so
font and size range attributes are not retained. -/
theorem C9_counterexample :
    (build_attrs d9 [((0, 5), TextAttribute.fontSize 99)]).size_at 0 = 12 ∧
    span_contains (0, 5) 0 = true ∧
    decide ((12 : ℚ) = 99) = false := by
  refine ⟨?_, rfl, ?_⟩
  · rw [size_at_build]
    rfl
  · rw [decide_eq_false_iff_not]
    norm_num

/-- C9 amended: font-size and font-family range attributes added through
the builder are discarded (Attributes::add retains only TextColor), so
size and font always resolve to the layout defaults; the effective color
is the first color range attribute whose range contains the character
index, else the default; and rebuilding glyph instances is unaffected by
dropping the non-color adds. -/
theorem C9_color_only_attributes (d : LayoutDefaults)
    (adds : List ((Nat × Nat) × TextAttribute)) (i : Nat)
    (text : List Char) (g : Char → FontFamily → ℚ → Option GlyphPos) :
    (build_attrs d adds).size_at i = d.font_size ∧
    (build_attrs d adds).font_at i = d.font ∧
    (build_attrs d adds).color_at i = spec_first_color d adds i ∧
    rebuild text (build_attrs d adds) g =
      rebuild text (build_attrs d (adds.filter is_color_attr)) g := by
  refine ⟨size_at_build d adds i, font_at_build d adds i, color_at_build d adds i, ?_⟩
  rw [build_attrs_filter]

theorem update_last_append (f : Primitive → Primitive) (l : List Primitive) (x : Primitive) :
    update_last f (l ++ [x]) = l ++ [f x] := by
  induction l with
  | nil => rfl
  | cons p rest ih =>
      cases rest with
      | nil => rfl
      | cons q rest2 =>
          show p :: update_last f ((q :: rest2) ++ [x]) = p :: ((q :: rest2) ++ [f x])
          rw [ih]

/-- A primitive record carrying only the translation components of the
given context's current transform: identity affine coefficients in
transform_1/transform_2, translate equal to the transform's translation. -/
def translation_only (p : Primitive) (c : Ctx) : Prop :=
  p.transform_1 = (1, 0, 0, 1) ∧ p.transform_2 = (0, 0) ∧
  p.translate = (c.cur_transform.e, c.cur_transform.f)

/-- A one-variant svg image for the concrete C10 check: unit view box, a
single scale-by-two transform variant, no cached geometry. -/
def svg_demo : SvgData :=
  { view_rect := ⟨0, 0, 1, 1⟩
    transforms := [⟨2, 0, 0, 2, 0, 0⟩]
    geom_vertices := []
    geom_indices := [] }

/-- Destination rectangle for the concrete C10 check. -/
def rect_demo : Rect := ⟨0, 0, 1, 1⟩

/-- C10: every primitive record appended by transform, clip, restore and
blurred_rect carries identity transform_1/transform_2 and only the
translation of the current transform in translate, while draw_svg does
write non-identity affine coefficients (concretely, its variant primitive
gets transform_1 = (2,0,0,2)). -/
theorem C10_identity_affine_except_svg :
    (∀ (c : Ctx) (t : Affine) (p : Primitive), p ∈ (transform c t).primitives →
      p ∈ c.primitives ∨ translation_only p (transform c t)) ∧
    (∀ (c : Ctx) (sh : Shape) (p : Primitive), p ∈ (clip c sh).primitives →
      p ∈ c.primitives ∨ translation_only p (clip c sh)) ∧
    (∀ (c : Ctx) (p : Primitive), p ∈ (restore c).1.primitives →
      p ∈ c.primitives ∨ translation_only p (restore c).1) ∧
    (∀ (c : Ctx) (r : Rect) (rad : ℚ) (br : Brush) (p : Primitive),
      p ∈ (blurred_rect c r rad br).primitives →
      p ∈ c.primitives ∨ translation_only p (blurred_rect c r rad br)) ∧
    ((draw_svg Ctx.new svg_demo rect_demo none).primitives.map
        (fun p => p.transform_1) = [(2, 0, 0, 2), (1, 0, 0, 1)] ∧
     decide (((2 : ℚ), (0 : ℚ), (0 : ℚ), (2 : ℚ)) =
       ((1 : ℚ), (0 : ℚ), (0 : ℚ), (1 : ℚ))) = false) := by
  refine ⟨?_, ?_, ?_, ?_, ?_, ?_⟩
  · intro c t p hp
    simp only [transform, add_primitive, List.mem_append, List.mem_singleton] at hp
    cases hp with
    | inl h => exact Or.inl h
    | inr h => exact Or.inr (h ▸ ⟨rfl, rfl, rfl⟩)
  · intro c sh p hp
    cases sh with
    | rect r =>
        simp only [clip, Shape.as_rect, add_primitive,
          List.mem_append, List.mem_singleton] at hp
        cases hp with
        | inl h => exact Or.inl h
        | inr h => exact Or.inr (h ▸ ⟨rfl, rfl, rfl⟩)
    | line p0 p1 => exact Or.inl hp
    | path els => exact Or.inl hp
  · intro c p hp
    cases hs : c.state_stack with
    | nil =>
        rw [restore.eq_def, hs] at hp
        exact Or.inl hp
    | cons s rest =>
        rw [restore.eq_def, hs] at hp
        simp only [add_primitive, List.mem_append, List.mem_singleton] at hp
        cases hp with
        | inl h => exact Or.inl h
        | inr h =>
            refine Or.inr (h ▸ ⟨rfl, rfl, ?_⟩)
            rw [restore.eq_def, hs]
            rfl
  · intro c r rad br p hp
    simp only [blurred_rect, add_primitive, update_last_append,
      List.mem_append, List.mem_singleton] at hp
    rcases hp with (h | h) | h
    · exact Or.inl h
    · exact Or.inr (h ▸ ⟨rfl, rfl, rfl⟩)
    · exact Or.inr (h ▸ ⟨rfl, rfl, rfl⟩)
  · simp only [draw_svg, svg_demo, rect_demo, Ctx.new, add_primitive, current_clip,
      prim_of, update_last, List.foldl_cons, List.foldl_nil, Rect.width, Rect.height,
      List.map_nil, List.map_cons, List.append_nil, List.nil_append, Affine.default]
    norm_num
  · rw [decide_eq_false_iff_not]
    intro hq
    have h1 := congrArg (fun q => q.1) hq
    norm_num at h1

/-- The record appended by the C10 witness's transform call. -/
def c10p : Primitive := prim_of (Affine.default.mul t0) none

theorem C10_witness :
    c10p ∈ (transform Ctx.new t0).primitives ∧
    (c10p ∈ Ctx.new.primitives ∨ translation_only c10p (transform Ctx.new t0)) :=
  ⟨by simp [c10p, transform, add_primitive, Ctx.new, current_clip],
   C10_identity_affine_except_svg.1 Ctx.new t0 c10p
     (by simp [c10p, transform, add_primitive, Ctx.new, current_clip])⟩

end PietWgpu
